import Mathlib

/-!
Verification of the two-layer ET (Exertion Time) core of the application
in src/app.py: the ET transfer function, the per-step layer scorer
(compute_et_layers), the overall classifier (classify_overall), the
first-crossing threshold locator (find_threshold_step), and the guard of
the analyze branch.  Real-valued quantities of the program are embedded
as rationals; the per-step table rows become a list of records.
-/

/-- One row of the step table (src/app.py default_steps and the data
editor): Step, Label, Duration_min, VO2_current, HRV_current. -/
structure StepRecord where
  step : ℕ
  label : String
  duration_min : ℚ
  vo2 : ℚ
  hrv : ℚ
  deriving DecidableEq, Repr

/-- A row augmented by compute_et_layers with the two ET columns
E_VO2 and E_HRV; the original row is kept whole in the base field. -/
structure ScoredStep where
  base : StepRecord
  e_vo2 : ℚ
  e_hrv : ℚ
  deriving DecidableEq, Repr

/-- The three overall statuses of classify_overall. -/
inductive Status
  | GREEN
  | YELLOW
  | RED
  deriving DecidableEq, Repr

/-- The three limiter outcomes of classify_overall. -/
inductive Limiter
  | autonomic
  | metabolic
  | balanced
  deriving DecidableEq, Repr

/-- The five-tuple returned by classify_overall, as a record:
(status, min_e, min_e_vo2, min_e_hrv, limiter). -/
structure Classification where
  status : Status
  min_e : ℚ
  min_e_vo2 : ℚ
  min_e_hrv : ℚ
  limiter : Limiter
  deriving DecidableEq, Repr

/-- The ET transfer function applied to both layers in
compute_et_layers: e = 1 - x^2. -/
def ET (x : ℚ) : ℚ := 1 - x ^ 2

/-- The VO2-layer ratio of compute_et_layers: x_vo2 = vo2 / vo2max,
clamped below at 0 (the branch if x_vo2 < 0: x_vo2 = 0.0), with no
upper clamp. -/
def xVo2 (vo2 vo2max : ℚ) : ℚ :=
  let x := vo2 / vo2max
  if x < 0 then 0 else x

/-- The HRV-layer ratio of compute_et_layers:
x_hrv = (hrv_rest - hrv) / hrv_rest, clamped into [0, 1]. -/
def xHrv (hrv hrv_rest : ℚ) : ℚ :=
  let x := (hrv_rest - hrv) / hrv_rest
  let x1 := if x < 0 then 0 else x
  if x1 > 1 then 1 else x1

/-- The per-row body of the loop of compute_et_layers: score one row,
keeping the row and adding E_VO2 and E_HRV. -/
def scoreStep (r : StepRecord) (vo2max hrv_rest : ℚ) : ScoredStep :=
  { base := r
    e_vo2 := ET (xVo2 r.vo2 vo2max)
    e_hrv := ET (xHrv r.hrv hrv_rest) }

/-- compute_et_layers (src/app.py lines 106-143): score every row of the
input in order; the input itself is left untouched (the source copies
the frame before adding the two ET columns). -/
def compute_et_layers (l : List StepRecord) (vo2max hrv_rest : ℚ) : List ScoredStep :=
  l.map (fun r => scoreStep r vo2max hrv_rest)

/-- Minimum of a list of rationals, as pandas Series.min on a non-empty
column; the value on the empty list is junk (the source never reaches
classify_overall with meaningful data on an empty frame). -/
def minList : List ℚ → ℚ
  | [] => 0
  | x :: xs => xs.foldl min x

/-- min_e_vo2 of classify_overall: minimum of the E_VO2 column. -/
def min_e_vo2 (l : List ScoredStep) : ℚ := minList (l.map ScoredStep.e_vo2)

/-- min_e_hrv of classify_overall: minimum of the E_HRV column. -/
def min_e_hrv (l : List ScoredStep) : ℚ := minList (l.map ScoredStep.e_hrv)

/-- classify_overall (src/app.py lines 146-169): overall status from
min_e = min(min_e_vo2, min_e_hrv) with cutoffs 0.70 and 0.40, and the
limiter with a 0.05 dead-band. -/
def classify_overall (l : List ScoredStep) : Classification :=
  let mv := min_e_vo2 l
  let mh := min_e_hrv l
  let m := min mv mh
  let status :=
    if m ≥ 0.70 then Status.GREEN
    else if m ≥ 0.40 then Status.YELLOW
    else Status.RED
  let limiter :=
    if mh < mv - 0.05 then Limiter.autonomic
    else if mv < mh - 0.05 then Limiter.metabolic
    else Limiter.balanced
  ⟨status, m, mv, mh, limiter⟩

/-- find_threshold_step (src/app.py lines 172-179): scan the rows in
the order supplied and return the Step field of the first row whose
selected ET column is ≤ cut, or none when no row crosses. -/
def find_threshold_step (l : List ScoredStep) (f : ScoredStep → ℚ) (cut : ℚ) : Option ℕ :=
  match l with
  | [] => none
  | s :: rest => if f s ≤ cut then some s.base.step else find_threshold_step rest f cut

/-- The analyze branch (src/app.py lines 184-191): if vo2max ≤ 0 or
hrv_rest ≤ 0 an error is shown and nothing is computed (none);
otherwise the steps are scored and classified. -/
def analyze (steps : List StepRecord) (vo2max hrv_rest : ℚ) : Option Classification :=
  if vo2max ≤ 0 ∨ hrv_rest ≤ 0 then none
  else some (classify_overall (compute_et_layers steps vo2max hrv_rest))

/-- default_steps (src/app.py lines 67-73): the five example rows. -/
def default_steps : List StepRecord :=
  [⟨1, "Very light", 3, 20, 78⟩,
   ⟨2, "Light", 3, 30, 70⟩,
   ⟨3, "Moderate", 3, 36, 60⟩,
   ⟨4, "Heavy", 3, 42, 48⟩,
   ⟨5, "Very heavy", 3, 50, 36⟩]

/-- Folding min never rises above the initial accumulator. -/
theorem foldl_min_le_init (xs : List ℚ) (x : ℚ) : xs.foldl min x ≤ x := by
  induction xs generalizing x with
  | nil => exact le_refl x
  | cons y ys ih => exact le_trans (ih (min x y)) (min_le_left x y)

/-- Folding min stays below every element of the list. -/
theorem foldl_min_le_mem (xs : List ℚ) : ∀ x a, a ∈ xs → xs.foldl min x ≤ a := by
  induction xs with
  | nil => intro x a ha; cases ha
  | cons y ys ih =>
    intro x a ha
    rcases List.mem_cons.mp ha with h | h
    · subst h
      exact le_trans (foldl_min_le_init ys (min x a)) (min_le_right x a)
    · exact ih (min x y) a h

/-- The fold of min is the initial accumulator or an element. -/
theorem foldl_min_mem (xs : List ℚ) : ∀ x, xs.foldl min x ∈ x :: xs := by
  induction xs with
  | nil => intro x; exact List.mem_singleton.mpr rfl
  | cons y ys ih =>
    intro x
    simp only [List.foldl_cons]
    have h := ih (min x y)
    rcases List.mem_cons.mp h with h1 | h1
    · rw [h1]
      rcases min_choice x y with hc | hc
      · rw [hc]
        exact List.mem_cons_self x (y :: ys)
      · rw [hc]
        exact List.mem_cons.mpr (Or.inr (List.mem_cons_self y ys))
    · exact List.mem_cons.mpr (Or.inr (List.mem_cons.mpr (Or.inr h1)))

/-- On a non-empty list, minList is attained by some element. -/
theorem minList_mem (l : List ℚ) (h : l ≠ []) : minList l ∈ l := by
  cases l with
  | nil => exact absurd rfl h
  | cons x xs => exact foldl_min_mem xs x

/-- minList is a lower bound of every element. -/
theorem minList_le (l : List ℚ) (a : ℚ) (ha : a ∈ l) : minList l ≤ a := by
  cases l with
  | nil => cases ha
  | cons x xs =>
    rcases List.mem_cons.mp ha with h | h
    · subst h
      exact foldl_min_le_init xs a
    · exact foldl_min_le_mem xs x a h

/-- minList is invariant under permutation of a non-empty list. -/
theorem minList_perm (l lp : List ℚ) (hp : l.Perm lp) (h : l ≠ []) :
    minList l = minList lp := by
  have hp2 : lp ≠ [] := fun he => h (List.Perm.eq_nil (he ▸ hp))
  have h1 : minList l ∈ lp := hp.mem_iff.mp (minList_mem l h)
  have h2 : minList lp ∈ l := hp.mem_iff.mpr (minList_mem lp hp2)
  exact le_antisymm (minList_le l _ h2) (minList_le lp _ h1)

/-- Claim C1: for every non-empty scored sequence, classify_overall assigns
status from min_e = min(min_e_vo2, min_e_hrv) with inclusive lower
bounds: GREEN iff min_e ≥ 0.70, YELLOW iff 0.40 ≤ min_e < 0.70, RED iff
min_e < 0.40; in particular min_e exactly 0.70 yields GREEN. -/
theorem classify_status_thresholds (l : List ScoredStep) (h : l ≠ []) :
    (classify_overall l).min_e = min (min_e_vo2 l) (min_e_hrv l) ∧
    ((classify_overall l).status = Status.GREEN ↔ 0.70 ≤ (classify_overall l).min_e) ∧
    ((classify_overall l).status = Status.YELLOW ↔
      0.40 ≤ (classify_overall l).min_e ∧ (classify_overall l).min_e < 0.70) ∧
    ((classify_overall l).status = Status.RED ↔ (classify_overall l).min_e < 0.40) := by
  have hm : (classify_overall l).min_e = min (min_e_vo2 l) (min_e_hrv l) := rfl
  have hs : (classify_overall l).status =
      (if min (min_e_vo2 l) (min_e_hrv l) ≥ 0.70 then Status.GREEN
       else if min (min_e_vo2 l) (min_e_hrv l) ≥ 0.40 then Status.YELLOW
       else Status.RED) := rfl
  set m := min (min_e_vo2 l) (min_e_hrv l) with hmdef
  refine ⟨hm, ?_, ?_, ?_⟩ <;> rw [hs, hm] <;> split_ifs with h1 h2
  · exact iff_of_true rfl h1
  · exact iff_of_false (by decide) h1
  · exact iff_of_false (by decide) h1
  · exact iff_of_false (by decide) (fun hc => absurd hc.2 (not_lt.mpr h1))
  · exact iff_of_true rfl ⟨h2, not_le.mp h1⟩
  · exact iff_of_false (by decide) (fun hc => h2 hc.1)
  · exact iff_of_false (by decide) (not_lt.mpr (le_trans (by norm_num) h1))
  · exact iff_of_false (by decide) (not_lt.mpr h2)
  · exact iff_of_true rfl (not_le.mp h2)

/-- Witness for C1 at a concrete one-step list whose overall minimum is
exactly 0.70: the status is GREEN (inclusive boundary). -/
theorem classify_status_thresholds_witness :
    ([(⟨⟨1, "s", 3, 0, 0⟩, 0.70, 0.9⟩ : ScoredStep)] ≠ ([] : List ScoredStep)) ∧
    (classify_overall [(⟨⟨1, "s", 3, 0, 0⟩, 0.70, 0.9⟩ : ScoredStep)]).min_e = 0.70 ∧
    (classify_overall [(⟨⟨1, "s", 3, 0, 0⟩, 0.70, 0.9⟩ : ScoredStep)]).status = Status.GREEN := by
  have h := classify_status_thresholds [⟨⟨1, "s", 3, 0, 0⟩, 0.70, 0.9⟩]
    (List.cons_ne_nil _ _)
  have hme : (classify_overall [(⟨⟨1, "s", 3, 0, 0⟩, 0.70, 0.9⟩ : ScoredStep)]).min_e = 0.70 := by
    rw [h.1]
    simp [min_e_vo2, min_e_hrv, minList]
    norm_num
  exact ⟨List.cons_ne_nil _ _, hme, h.2.1.mpr (le_of_eq hme.symm)⟩

/-- Claim C2: for every non-empty scored sequence, classify_overall sets the
limiter with a fixed dead-band of 0.05: autonomic iff
min_e_hrv < min_e_vo2 - 0.05, metabolic iff min_e_vo2 < min_e_hrv - 0.05,
and balanced exactly when the two minima differ by at most 0.05 (ties
included). -/
theorem classify_limiter_deadband (l : List ScoredStep) (h : l ≠ []) :
    (classify_overall l).min_e_vo2 = min_e_vo2 l ∧
    (classify_overall l).min_e_hrv = min_e_hrv l ∧
    ((classify_overall l).limiter = Limiter.autonomic ↔
      min_e_hrv l < min_e_vo2 l - 0.05) ∧
    ((classify_overall l).limiter = Limiter.metabolic ↔
      min_e_vo2 l < min_e_hrv l - 0.05) ∧
    ((classify_overall l).limiter = Limiter.balanced ↔
      |min_e_vo2 l - min_e_hrv l| ≤ 0.05) := by
  have hl : (classify_overall l).limiter =
      (if min_e_hrv l < min_e_vo2 l - 0.05 then Limiter.autonomic
       else if min_e_vo2 l < min_e_hrv l - 0.05 then Limiter.metabolic
       else Limiter.balanced) := rfl
  refine ⟨rfl, rfl, ?_, ?_, ?_⟩ <;> rw [hl] <;> split_ifs with h1 h2
  · exact iff_of_true rfl h1
  · exact iff_of_false (by decide) h1
  · exact iff_of_false (by decide) h1
  · exact iff_of_false (by decide) (not_lt.mpr (by linarith))
  · exact iff_of_true rfl h2
  · exact iff_of_false (by decide) h2
  · exact iff_of_false (by decide) (fun hc => by
      have := abs_le.mp hc
      linarith)
  · exact iff_of_false (by decide) (fun hc => by
      have := abs_le.mp hc
      linarith)
  · exact iff_of_true rfl (abs_le.mpr ⟨by linarith [not_lt.mp h2], by linarith [not_lt.mp h1]⟩)

/-- Witness for C2 at a concrete one-step list with
min_e_vo2 = min_e_hrv = 0.50: the exact tie resolves to balanced. -/
theorem classify_limiter_deadband_witness :
    ([(⟨⟨1, "s", 3, 0, 0⟩, 0.50, 0.50⟩ : ScoredStep)] ≠ ([] : List ScoredStep)) ∧
    (classify_overall [(⟨⟨1, "s", 3, 0, 0⟩, 0.50, 0.50⟩ : ScoredStep)]).limiter
      = Limiter.balanced := by
  have h := classify_limiter_deadband [⟨⟨1, "s", 3, 0, 0⟩, 0.50, 0.50⟩]
    (List.cons_ne_nil _ _)
  refine ⟨List.cons_ne_nil _ _, h.2.2.2.2.mpr ?_⟩
  simp [min_e_vo2, min_e_hrv, minList]
  norm_num

/-- Claim C3: for every step record scored with positive references, the HRV
ratio x_hrv is clamped into [0, 1] so e_hrv lies in [0, 1]; the VO2
ratio x_vo2 is clamped below at 0 but not above, so e_vo2 ≤ 1 always
and e_vo2 is negative exactly when x_vo2 > 1. -/
theorem scoreStep_ranges (r : StepRecord) (vo2max hrv_rest : ℚ)
    (hv : 0 < vo2max) (hh : 0 < hrv_rest) :
    (0 ≤ xHrv r.hrv hrv_rest ∧ xHrv r.hrv hrv_rest ≤ 1) ∧
    (0 ≤ (scoreStep r vo2max hrv_rest).e_hrv ∧ (scoreStep r vo2max hrv_rest).e_hrv ≤ 1) ∧
    0 ≤ xVo2 r.vo2 vo2max ∧
    (scoreStep r vo2max hrv_rest).e_vo2 ≤ 1 ∧
    ((scoreStep r vo2max hrv_rest).e_vo2 < 0 ↔ 1 < xVo2 r.vo2 vo2max) := by
  have hxh : 0 ≤ xHrv r.hrv hrv_rest ∧ xHrv r.hrv hrv_rest ≤ 1 := by
    simp only [xHrv]
    split_ifs with h1 h2 h3 <;> constructor <;> try norm_num
    · exact le_of_not_lt h1
    · exact le_of_not_lt h3
  have hxh0 : 0 ≤ xHrv r.hrv hrv_rest := hxh.1
  have hxh1 : xHrv r.hrv hrv_rest ≤ 1 := hxh.2
  have hxv0 : 0 ≤ xVo2 r.vo2 vo2max := by
    simp only [xVo2]
    split_ifs with h1
    · norm_num
    · exact le_of_not_lt h1
  have heh : (scoreStep r vo2max hrv_rest).e_hrv = ET (xHrv r.hrv hrv_rest) := rfl
  have hev : (scoreStep r vo2max hrv_rest).e_vo2 = ET (xVo2 r.vo2 vo2max) := rfl
  refine ⟨⟨hxh0, hxh1⟩, ⟨?_, ?_⟩, hxv0, ?_, ?_, ?_⟩
  · rw [heh]
    unfold ET
    nlinarith
  · rw [heh]
    unfold ET
    nlinarith [sq_nonneg (xHrv r.hrv hrv_rest)]
  · rw [hev]
    unfold ET
    nlinarith [sq_nonneg (xVo2 r.vo2 vo2max)]
  · intro hlt
    rw [hev] at hlt
    unfold ET at hlt
    by_contra hle
    push_neg at hle
    nlinarith
  · intro h1
    rw [hev]
    unfold ET
    nlinarith

/-- Witness for C3 at a concrete supra-maximal step (vo2 = 90 against
vo2max = 60, hrv = 40 against hrv_rest = 80): e_hrv stays in [0, 1] and
e_vo2 is negative because x_vo2 = 1.5 > 1. -/
theorem scoreStep_ranges_witness :
    (0:ℚ) < 60 ∧ (0:ℚ) < 80 ∧
    (0 ≤ (scoreStep ⟨1, "w", 3, 90, 40⟩ 60 80).e_hrv ∧
      (scoreStep ⟨1, "w", 3, 90, 40⟩ 60 80).e_hrv ≤ 1) ∧
    (scoreStep ⟨1, "w", 3, 90, 40⟩ 60 80).e_vo2 < 0 := by
  have h := scoreStep_ranges ⟨1, "w", 3, 90, 40⟩ 60 80 (by norm_num) (by norm_num)
  refine ⟨by norm_num, by norm_num, h.2.1, h.2.2.2.2.mpr ?_⟩
  norm_num [xVo2]

/-- Claim C7: the ET transfer function ET(x) = 1 - x^2 is strictly decreasing
on the non-negative ratios: for 0 ≤ x1 < x2, ET(x1) > ET(x2). -/
theorem ET_strict_decreasing (x1 x2 : ℚ) (h0 : 0 ≤ x1) (h12 : x1 < x2) :
    ET x2 < ET x1 := by
  unfold ET
  nlinarith

/-- Witness for C7 at the concrete pair 0 < 1: ET 1 < ET 0. -/
theorem ET_strict_decreasing_witness :
    (0:ℚ) ≤ 0 ∧ (0:ℚ) < 1 ∧ ET 1 < ET 0 :=
  ⟨le_refl 0, by norm_num, ET_strict_decreasing 0 1 (le_refl 0) (by norm_num)⟩

/-- Claim C10: with positive references and non-negative vo2 on every step,
the scorer divides only by non-zero references and the lower-clamp
branch for x_vo2 is unreachable: the ratio vo2 / vo2max is already
non-negative and x_vo2 equals it unchanged (scoring is total). -/
theorem compute_et_layers_no_clamp (l : List StepRecord) (vo2max hrv_rest : ℚ)
    (hv : 0 < vo2max) (hh : 0 < hrv_rest) (hvo2 : ∀ r ∈ l, 0 ≤ r.vo2) :
    vo2max ≠ 0 ∧ hrv_rest ≠ 0 ∧
    ∀ r ∈ l, ¬ r.vo2 / vo2max < 0 ∧ xVo2 r.vo2 vo2max = r.vo2 / vo2max := by
  refine ⟨ne_of_gt hv, ne_of_gt hh, fun r hr => ?_⟩
  have h0 : 0 ≤ r.vo2 / vo2max := div_nonneg (hvo2 r hr) (le_of_lt hv)
  refine ⟨not_lt.mpr h0, ?_⟩
  simp only [xVo2]
  rw [if_neg (not_lt.mpr h0)]

/-- Witness for C10 at the default five steps with references 60, 80:
every vo2 is non-negative and no clamp fires. -/
theorem compute_et_layers_no_clamp_witness :
    (0:ℚ) < 60 ∧ (0:ℚ) < 80 ∧ (∀ r ∈ default_steps, 0 ≤ r.vo2) ∧
    ((60:ℚ) ≠ 0 ∧ (80:ℚ) ≠ 0 ∧
      ∀ r ∈ default_steps, ¬ r.vo2 / 60 < 0 ∧ xVo2 r.vo2 60 = r.vo2 / 60) := by
  have hvo2 : ∀ r ∈ default_steps, (0:ℚ) ≤ r.vo2 := by decide
  exact ⟨by norm_num, by norm_num, hvo2,
    compute_et_layers_no_clamp default_steps 60 80 (by norm_num) (by norm_num) hvo2⟩

/-- Claim C4: find_threshold_step scans the rows in the order supplied and
returns the Step index of the first row whose selected ET value is
≤ cut; it returns none (a distinguished absence value, no exception —
the function is total) exactly when no row satisfies the cutoff. -/
theorem find_threshold_step_first (l : List ScoredStep) (f : ScoredStep → ℚ) (cut : ℚ) :
    (find_threshold_step l f cut = none ↔ ∀ s ∈ l, cut < f s) ∧
    (∀ i : ℕ, find_threshold_step l f cut = some i ↔
      ∃ pre s post, l = pre ++ s :: post ∧ f s ≤ cut ∧
        (∀ t ∈ pre, cut < f t) ∧ s.base.step = i) := by
  induction l with
  | nil =>
    refine ⟨by simp [find_threshold_step], fun i => ?_⟩
    simp only [find_threshold_step]
    constructor
    · intro hc
      exact Option.noConfusion hc
    · rintro ⟨pre, s, post, hl, -⟩
      exact absurd hl (by simp)
  | cons a rest ih =>
    by_cases hfa : f a ≤ cut
    · refine ⟨?_, fun i => ?_⟩
      · refine iff_of_false ?_ ?_
        · simp [find_threshold_step, hfa]
        · intro hall
          exact absurd (hall a (List.mem_cons_self a rest)) (not_lt.mpr hfa)
      · simp only [find_threshold_step, if_pos hfa]
        constructor
        · intro hsome
          exact ⟨[], a, rest, rfl, hfa, by simp, Option.some.inj hsome⟩
        · rintro ⟨pre, s, post, hl, hfs, hpre, hstep⟩
          cases pre with
          | nil =>
            simp only [List.nil_append] at hl
            obtain ⟨ha, -⟩ := List.cons.inj hl
            rw [ha, hstep]
          | cons p pre2 =>
            simp only [List.cons_append] at hl
            obtain ⟨ha, -⟩ := List.cons.inj hl
            have hp := hpre p (List.mem_cons_self p pre2)
            rw [← ha] at hp
            exact absurd hfa (not_le.mpr hp)
    · refine ⟨?_, fun i => ?_⟩
      · simp only [find_threshold_step, if_neg hfa]
        rw [ih.1]
        constructor
        · intro hall s hs
          rcases List.mem_cons.mp hs with h | h
          · rw [h]
            exact not_le.mp hfa
          · exact hall s h
        · intro hall s hs
          exact hall s (List.mem_cons.mpr (Or.inr hs))
      · simp only [find_threshold_step, if_neg hfa]
        rw [ih.2 i]
        constructor
        · rintro ⟨pre, s, post, hl, hfs, hpre, hstep⟩
          refine ⟨a :: pre, s, post, by rw [List.cons_append, hl], hfs, ?_, hstep⟩
          intro t ht
          rcases List.mem_cons.mp ht with h | h
          · rw [h]
            exact not_le.mp hfa
          · exact hpre t h
        · rintro ⟨pre, s, post, hl, hfs, hpre, hstep⟩
          cases pre with
          | nil =>
            simp only [List.nil_append] at hl
            obtain ⟨ha, hrest⟩ := List.cons.inj hl
            rw [ha] at hfa
            exact absurd hfs hfa
          | cons p pre2 =>
            simp only [List.cons_append] at hl
            obtain ⟨-, hrest⟩ := List.cons.inj hl
            exact ⟨pre2, s, post, hrest, hfs,
              fun t ht => hpre t (List.mem_cons.mpr (Or.inr ht)), hstep⟩

/-- Claim C8: classify_overall is invariant under any permutation of a
non-empty scored sequence: only the minima matter, not the order of the
steps or which step attains a minimum. -/
theorem classify_overall_perm (l lp : List ScoredStep) (hp : l.Perm lp) (h : l ≠ []) :
    classify_overall l = classify_overall lp := by
  have hnv : l.map ScoredStep.e_vo2 ≠ [] := by
    simpa using h
  have hnh : l.map ScoredStep.e_hrv ≠ [] := by
    simpa using h
  have hv : min_e_vo2 l = min_e_vo2 lp :=
    minList_perm _ _ (hp.map ScoredStep.e_vo2) hnv
  have hh : min_e_hrv l = min_e_hrv lp :=
    minList_perm _ _ (hp.map ScoredStep.e_hrv) hnh
  unfold classify_overall
  rw [hv, hh]

/-- Witness for C8 at a concrete two-step list and its swap: the whole
classification is unchanged. -/
theorem classify_overall_perm_witness :
    ([(⟨⟨1, "a", 3, 10, 70⟩, 0.3, 0.8⟩ : ScoredStep), ⟨⟨2, "b", 3, 20, 50⟩, 0.9, 0.6⟩].Perm
      [(⟨⟨2, "b", 3, 20, 50⟩, 0.9, 0.6⟩ : ScoredStep), ⟨⟨1, "a", 3, 10, 70⟩, 0.3, 0.8⟩]) ∧
    classify_overall [(⟨⟨1, "a", 3, 10, 70⟩, 0.3, 0.8⟩ : ScoredStep), ⟨⟨2, "b", 3, 20, 50⟩, 0.9, 0.6⟩] =
      classify_overall [(⟨⟨2, "b", 3, 20, 50⟩, 0.9, 0.6⟩ : ScoredStep), ⟨⟨1, "a", 3, 10, 70⟩, 0.3, 0.8⟩] := by
  have hp : ([(⟨⟨1, "a", 3, 10, 70⟩, 0.3, 0.8⟩ : ScoredStep), ⟨⟨2, "b", 3, 20, 50⟩, 0.9, 0.6⟩].Perm
      [(⟨⟨2, "b", 3, 20, 50⟩, 0.9, 0.6⟩ : ScoredStep), ⟨⟨1, "a", 3, 10, 70⟩, 0.3, 0.8⟩]) :=
    List.Perm.swap _ _ _
  exact ⟨hp, classify_overall_perm _ _ hp (List.cons_ne_nil _ _)⟩

/-- Claim C9: the layer scorer returns a sequence of the same length and
order as its input in which every original field of every step is
unchanged (the whole input row is recoverable by projection) and only
the two ET fields are added; the embedding is a pure map, mirroring the
df.copy() in the source, so the input is not mutated. -/
theorem compute_et_layers_frame (l : List StepRecord) (vo2max hrv_rest : ℚ) :
    (compute_et_layers l vo2max hrv_rest).length = l.length ∧
    (compute_et_layers l vo2max hrv_rest).map ScoredStep.base = l := by
  constructor
  · simp [compute_et_layers]
  · simp [compute_et_layers, List.map_map]
    have : (ScoredStep.base ∘ fun r => scoreStep r vo2max hrv_rest) = id := by
      funext r
      rfl
    rw [this, List.map_id]

/-- Claim C5 counterexample: at the concrete input of an empty step list with
positive references 60 and 80, the analyze branch does NOT reject (it
proceeds to compute), so rejection is not equivalent to "empty sequence
or reference ≤ 0" as the claim states. -/
theorem analyze_empty_not_rejected :
    ¬ ((analyze [] 60 80 = none) ↔
      (([] : List StepRecord) = [] ∨ (60:ℚ) ≤ 0 ∨ (80:ℚ) ≤ 0)) := by
  intro hc
  have h1 : analyze ([] : List StepRecord) 60 80 = none := hc.mpr (Or.inl rfl)
  have h2 : analyze ([] : List StepRecord) 60 80 =
      some (classify_overall (compute_et_layers [] 60 80)) := by
    unfold analyze
    rw [if_neg]
    push_neg
    constructor <;> norm_num
  rw [h2] at h1
  exact Option.noConfusion h1

/-- Claim C5 (amended): the analyze branch rejects exactly when vo2max ≤ 0 or
hrv_rest ≤ 0; emptiness of the step sequence plays no part, and for any
sequence (empty or not) with positive references the computation
proceeds without error to scoring and classification. -/
theorem analyze_gate (steps : List StepRecord) (vo2max hrv_rest : ℚ) :
    (analyze steps vo2max hrv_rest = none ↔ (vo2max ≤ 0 ∨ hrv_rest ≤ 0)) ∧
    (analyze steps vo2max hrv_rest =
        some (classify_overall (compute_et_layers steps vo2max hrv_rest)) ↔
      (0 < vo2max ∧ 0 < hrv_rest)) := by
  by_cases hc : vo2max ≤ 0 ∨ hrv_rest ≤ 0
  · have ha : analyze steps vo2max hrv_rest = none := by
      unfold analyze
      rw [if_pos hc]
    refine ⟨iff_of_true ha hc, iff_of_false ?_ ?_⟩
    · rw [ha]
      exact Option.noConfusion
    · rintro ⟨h1, h2⟩
      rcases hc with h | h
      · exact absurd h1 (not_lt.mpr h)
      · exact absurd h2 (not_lt.mpr h)
  · have ha : analyze steps vo2max hrv_rest =
        some (classify_overall (compute_et_layers steps vo2max hrv_rest)) := by
      unfold analyze
      rw [if_neg hc]
    push_neg at hc
    refine ⟨iff_of_false ?_ ?_, iff_of_true ha hc⟩
    · rw [ha]
      exact Option.noConfusion
    · intro hor
      rcases hor with h | h
      · exact absurd hc.1 (not_lt.mpr h)
      · exact absurd hc.2 (not_lt.mpr h)

/-- Claim C6: Scenario B at the five default steps in absolute mode with
vo2max = 60 and hrv_rest = 80: the exact per-step ET values are
e_vo2 = [8/9, 3/4, 16/25, 51/100, 11/36] and
e_hrv = [1599/1600, 63/64, 15/16, 21/25, 279/400], each within 0.001 of
the quoted decimals [0.889, 0.75, 0.64, 0.51, 0.306] and
[0.999, 0.984, 0.9375, 0.84, 0.6975]; the overall minimum is
11/36 = 1 - (50/60)^2 ≈ 0.306 < 0.40, so the status is RED. -/
theorem default_steps_scenario_B :
    (compute_et_layers default_steps 60 80).map ScoredStep.e_vo2 =
      [8/9, 3/4, 16/25, 51/100, 11/36] ∧
    (compute_et_layers default_steps 60 80).map ScoredStep.e_hrv =
      [1599/1600, 63/64, 15/16, 21/25, 279/400] ∧
    List.Forall₂ (fun e d => |e - d| ≤ 1/1000)
      ((compute_et_layers default_steps 60 80).map ScoredStep.e_vo2)
      [0.889, 0.75, 0.64, 0.51, 0.306] ∧
    List.Forall₂ (fun e d => |e - d| ≤ 1/1000)
      ((compute_et_layers default_steps 60 80).map ScoredStep.e_hrv)
      [0.999, 0.984, 0.9375, 0.84, 0.6975] ∧
    (classify_overall (compute_et_layers default_steps 60 80)).min_e = 11/36 ∧
    (11:ℚ)/36 = 1 - (50/60) ^ 2 ∧
    (11:ℚ)/36 < 0.40 ∧
    (classify_overall (compute_et_layers default_steps 60 80)).status = Status.RED := by
  have hev : (compute_et_layers default_steps 60 80).map ScoredStep.e_vo2 =
      [8/9, 3/4, 16/25, 51/100, 11/36] := by
    norm_num [compute_et_layers, default_steps, scoreStep, ET, xVo2, xHrv]
  have heh : (compute_et_layers default_steps 60 80).map ScoredStep.e_hrv =
      [1599/1600, 63/64, 15/16, 21/25, 279/400] := by
    norm_num [compute_et_layers, default_steps, scoreStep, ET, xVo2, xHrv]
  have hmv : min_e_vo2 (compute_et_layers default_steps 60 80) = 11/36 := by
    rw [min_e_vo2, hev]
    norm_num [minList, min_def]
  have hmh : min_e_hrv (compute_et_layers default_steps 60 80) = 279/400 := by
    rw [min_e_hrv, heh]
    norm_num [minList, min_def]
  have hme : (classify_overall (compute_et_layers default_steps 60 80)).min_e = 11/36 := by
    have hd : (classify_overall (compute_et_layers default_steps 60 80)).min_e =
        min (min_e_vo2 (compute_et_layers default_steps 60 80))
          (min_e_hrv (compute_et_layers default_steps 60 80)) := rfl
    rw [hd, hmv, hmh]
    norm_num [min_def]
  have hst : (classify_overall (compute_et_layers default_steps 60 80)).status = Status.RED := by
    have hd : (classify_overall (compute_et_layers default_steps 60 80)).status =
        (if min (min_e_vo2 (compute_et_layers default_steps 60 80))
            (min_e_hrv (compute_et_layers default_steps 60 80)) ≥ 0.70 then Status.GREEN
         else if min (min_e_vo2 (compute_et_layers default_steps 60 80))
            (min_e_hrv (compute_et_layers default_steps 60 80)) ≥ 0.40 then Status.YELLOW
         else Status.RED) := rfl
    rw [hd, hmv, hmh]
    norm_num [min_def]
  refine ⟨hev, heh, ?_, ?_, hme, by norm_num, by norm_num, hst⟩
  · rw [hev]
    refine List.Forall₂.cons (by norm_num [abs_le]) (List.Forall₂.cons (by norm_num [abs_le])
      (List.Forall₂.cons (by norm_num [abs_le]) (List.Forall₂.cons (by norm_num [abs_le])
        (List.Forall₂.cons (by norm_num [abs_le]) List.Forall₂.nil))))
  · rw [heh]
    refine List.Forall₂.cons (by norm_num [abs_le]) (List.Forall₂.cons (by norm_num [abs_le])
      (List.Forall₂.cons (by norm_num [abs_le]) (List.Forall₂.cons (by norm_num [abs_le])
        (List.Forall₂.cons (by norm_num [abs_le]) List.Forall₂.nil))))
